import Mathlib

/-!
# Verification of the Ard collection-network extraction and geometry engines

Shallow embedding of `ard/collection/optiwindnet_wrap.py` and
`ard/utils/geometry.py`.  Machine floats are modelled as rationals (`ℚ`)
for the extraction engine and as reals (`ℝ`) for the gradient assembly
(which uses a square root).  The external solver graphs (`S`, `G`, `A`)
are modelled as explicit edge lists with the attributes the code reads.
-/

namespace Ard

/-- An edge of the solved collection graph `S`: endpoints, the `load`
attribute (number of turbines aggregated through the edge) and the
`reverse` direction flag. -/
structure SEdge where
  u : Int
  v : Int
  load : Int
  reverse : Bool
deriving DecidableEq

/-- An edge of the realized physical graph `G`, carrying the `length`
and `load` attributes the extraction reads. -/
structure GEdge where
  u : Int
  v : Int
  length : Rat
  load : Int
deriving DecidableEq

/-- Adjacency view `G[n]`: the neighbors of `n` with their edge
attributes `(other_endpoint, length, load)`, in edge-list order
(modelling the networkx adjacency dict in insertion order). -/
def gAdj (g : List GEdge) (n : Int) : List (Int × Rat × Int) :=
  g.filterMap (fun e =>
    if e.u = n then some (e.v, e.length, e.load)
    else if e.v = n then some (e.u, e.length, e.load)
    else none)

/-- Membership test `v in G[u]`. -/
def gHasEdge (g : List GEdge) (u v : Int) : Bool :=
  (gAdj g u).any (fun p => p.1 = v)

/-- Attribute lookup `G[a][b]['length']`; `none` models a `KeyError`. -/
def gLength (g : List GEdge) (a b : Int) : Option Rat :=
  ((gAdj g a).find? (fun p => p.1 = b)).map (fun p => p.2.1)

/-- `G.size(weight='length')`: total edge-weighted size of `G`. -/
def gSize (g : List GEdge) : Rat :=
  (g.map (fun e => e.length)).sum

/-- Canonicalization `u, v = (u, v) if u < v else (v, u)`. -/
def canon (u v : Int) : Int × Int :=
  if u < v then (u, v) else (v, u)

/-- Origin/target selection of the extraction pass, exactly as the code
performs it after canonicalization:
`i, target = (u, v) if edgeD['reverse'] else (v, u)`. -/
def originTarget (u v : Int) (reverse : Bool) : Int × Int :=
  let p := canon u v
  if reverse then (p.1, p.2) else (p.2, p.1)

/-- The origin/target rule as the specification words it (`reverse=True`
means origin is `v`, target is `u`; else origin `u`, target `v`), stated
for comparison with the code's `originTarget`. -/
def originTargetClaimed (u v : Int) (reverse : Bool) : Int × Int :=
  let p := canon u v
  if reverse then (p.2, p.1) else (p.1, p.2)

/-- The origin endpoint the code assigns to a solved edge. -/
def originOf (e : SEdge) : Int :=
  (originTarget e.u e.v e.reverse).1

/-- A numpy-style write `arr[i] = x` on a 1-D array: negative indices
wrap around from the end; an index out of `[-len, len)` is an
`IndexError`. -/
def npSet {α : Type} (l : List α) (i : Int) (x : α) : Except String (List α) :=
  let n : Int := l.length
  let j : Int := if i < 0 then n + i else i
  if 0 ≤ j ∧ j < n then .ok (l.set j.toNat x) else .error "IndexError"

/-- State of the detour-chain `while` loop of `compute`, walked with
explicit fuel.  `cur` models the Python local `cur_hop`, which is *not
assigned* before the loop: reading it while it is `none` is the
`UnboundLocalError` the interpreter raises.  The body mirrors

```
while fwd_hop >= T:
    s, t = G[fwd_hop]
    temp = s if t == rev_hop else t
    fwd_hop, cur_hop, rev_hop = temp, fwd_hop, cur_hop
    length_cables[i] += G[cur_hop][fwd_hop]['length']
```
-/
def walkCode (g : List GEdge) (T : Int) :
    Nat → Int → Option Int → Int → Rat → Except String Rat
  | 0, _, _, _, _ => .error "nontermination"
  | fuel + 1, fwd, cur, rev, acc =>
    if fwd < T then .ok acc
    else
      match gAdj g fwd with
      | [(s, _, _), (t, _, _)] =>
        let temp := if t = rev then s else t
        match cur with
        | none => .error "UnboundLocalError cur_hop"
        | some c =>
          match gLength g fwd temp with
          | none => .error "KeyError"
          | some len => walkCode g T fuel temp (some fwd) c (acc + len)
      | _ => .error "ValueError unpack"

/-- Modelled from the spec: the detour-chain walk as §4.2 describes it
(each step picks the neighbor of the front node other than the node
just visited and adds the hop length), i.e. the loop with the
uninitialized-variable slip repaired to
`fwd_hop, rev_hop = temp, fwd_hop`, with explicit fuel standing for the
(absent) hop bound; `none` is fuel exhaustion or a malformed graph. -/
def walkIntended (g : List GEdge) (T : Int) :
    Nat → Int → Int → Rat → Option Rat
  | 0, _, _, _ => none
  | fuel + 1, fwd, rev, acc =>
    if fwd < T then some acc
    else
      match gAdj g fwd with
      | [(s, _, _), (t, _, _)] =>
        let temp := if t = rev then s else t
        match gLength g fwd temp with
        | none => none
        | some len => walkIntended g T fuel temp fwd (acc + len)
      | _ => none

/-- The segmented-feeder branch of `compute`: pick the first neighbor of
`v` that is a relay (`>= T`) carrying the edge's `load` (falling back to
the last neighbor when none matches, as the Python `for` leaves its
variable), record that first hop's length, then run the `while` loop
(an empty adjacency leaves the loop variable unbound). -/
def detourLength (g : List GEdge) (T : Int) (v : Int) (load : Int)
    (fuel : Nat) : Except String Rat :=
  let vNeighbors := gAdj g v
  match vNeighbors.find? (fun p => decide (T ≤ p.1) && decide (p.2.2 = load)) with
  | some (fwd, len, _) => walkCode g T fuel fwd none v len
  | none =>
    match vNeighbors.getLast? with
    | some (fwd, len, _) => walkCode g T fuel fwd none v len
    | none => .error "NameError fwd_hop"

/-- The dense per-turbine output arrays of the extraction pass. -/
structure ExtractArrays where
  terse : List Int
  lengths : List Rat
  loads : List Int
deriving DecidableEq

/-- Everything `compute` consumes from the external solver: the turbine
count `T`, the solved edges of `S`, the realized graph `G`, the
`d2roots` root-distance table and the candidate-link length table of
`A`, and `S.graph['max_load']`. -/
structure ExtractData where
  T : Nat
  sedges : List SEdge
  g : List GEdge
  d2roots : Int → Int → Rat
  alen : Int → Int → Rat
  gmaxLoad : Int

/-- Processing of one solved edge by the extraction loop body:
canonicalize, select origin/target, write the terse link and the load,
then compute and write the length (direct feeder via `d2roots`,
segmented feeder via the detour walk, non-feeder via the `A` table). -/
def stepEdge (d : ExtractData) (arr : ExtractArrays) (e : SEdge) :
    Except String ExtractArrays :=
  let p := canon e.u e.v
  let q := originTarget e.u e.v e.reverse
  match npSet arr.terse q.1 q.2 with
  | .error m => .error m
  | .ok terse1 =>
    match npSet arr.loads q.1 e.load with
    | .error m => .error m
    | .ok loads1 =>
      match (if p.1 < 0 then
               (if gHasEdge d.g p.1 p.2 then .ok (d.d2roots p.2 p.1)
                else detourLength d.g d.T p.2 e.load (d.g.length + 1))
             else .ok (d.alen p.1 p.2) : Except String Rat) with
      | .error m => .error m
      | .ok len =>
        match npSet arr.lengths q.1 len with
        | .error m => .error m
        | .ok lengths1 => .ok ⟨terse1, lengths1, loads1⟩

/-- The loop over `S.edges(data=True)`, with a raised exception
aborting the remainder of the pass. -/
def edgeLoop (d : ExtractData) :
    List SEdge → ExtractArrays → Except String ExtractArrays
  | [], arr => .ok arr
  | e :: es, arr =>
    match stepEdge d arr e with
    | .error m => .error m
    | .ok arr' => edgeLoop d es arr'

/-- The full edge pass of `compute`: zero-initialized arrays of length
`T`, then the loop over `S.edges(data=True)`. -/
def edgePass (d : ExtractData) : Except String ExtractArrays :=
  edgeLoop d d.sedges
    ⟨List.replicate d.T 0, List.replicate d.T 0, List.replicate d.T 0⟩

/-- The outputs `compute` populates. -/
structure Outputs where
  terse_links : List Int
  length_cables : List Rat
  load_cables : List Int
  max_load_cables : Int
  total_length_cables : Rat
deriving DecidableEq

/-- The component state: `self.graph`, absent before the first
evaluation. -/
abbrev ComponentState : Type := Option (List GEdge)

/-- `compute` as a state transformer: run the edge pass; if it raises,
the state is untouched; otherwise `self.graph = G` is stored (line 167,
before the assert), the length-conservation assert is checked against
`G.size(weight='length')` with absolute tolerance `1e-7`, and on
success the outputs (including `total_length_cables`, the sum of
`length_cables`) are returned. -/
def computeFull (st : ComponentState) (d : ExtractData) :
    ComponentState × Except String Outputs :=
  match edgePass d with
  | .error m => (st, .error m)
  | .ok arr =>
    (some d.g,
      if |arr.lengths.sum - gSize d.g| < 1 / 10 ^ 7 then
        .ok ⟨arr.terse, arr.lengths, arr.loads, d.gmaxLoad, arr.lengths.sum⟩
      else .error "AssertionError")

/-! ## Concrete solver outputs used as test vectors -/

/-- A one-turbine, one-substation farm whose feeder has a straight route:
`S` edge `(-1, 0)`, realized directly in `G` with length 5, and a
`d2roots` table agreeing with it. -/
def dDirect : ExtractData :=
  ⟨1, [⟨-1, 0, 1, false⟩], [⟨-1, 0, 5, 1⟩], fun _ _ => 5, fun _ _ => 0, 1⟩

/-- The same farm with an inconsistent `d2roots` table (7 instead of 5),
so the per-turbine sum disagrees with `G.size(weight='length')`. -/
def dMismatch : ExtractData :=
  ⟨1, [⟨-1, 0, 1, false⟩], [⟨-1, 0, 5, 1⟩], fun _ _ => 7, fun _ _ => 0, 1⟩

/-- A well-formed segmented feeder: one turbine `0`, substation `-1`,
relay (detour) nodes `1` and `2` (indices `≥ T = 1`), with the physical
route `0 – 1 – 2 – (-1)` of hop lengths 1, 2, 3; the `S` feeder edge
`(-1, 0)` has no direct link in `G`. -/
def dDetour : ExtractData :=
  ⟨1, [⟨-1, 0, 1, false⟩], [⟨0, 1, 1, 1⟩, ⟨1, 2, 2, 1⟩, ⟨-1, 2, 3, 1⟩],
    fun _ _ => 0, fun _ _ => 0, 1⟩

/-- A cyclic (malformed) physical graph: relay nodes 2, 3, 4 (indices
`≥ T = 2`) joined in a triangle, so a chain walk entering the cycle
never reaches a node below `T`. -/
def gCyc : List GEdge :=
  [⟨2, 3, 1, 1⟩, ⟨3, 4, 1, 1⟩, ⟨2, 4, 1, 1⟩]

/-- Extraction data for a two-turbine farm, used to exercise a single
non-feeder edge (candidate-link length table constantly 3). -/
def dC1 : ExtractData :=
  ⟨2, [], [], fun _ _ => 0, fun _ _ => 3, 0⟩

/-- Extraction data for a three-turbine farm (candidate-link length
table constantly 3). -/
def dC1b : ExtractData :=
  ⟨3, [], [], fun _ _ => 0, fun _ _ => 3, 0⟩

/-- A two-turbine solved graph whose edges `(-1,0)` and `(0,1)` have
origins 0 and 1 respectively. -/
def d9 : ExtractData :=
  ⟨2, [⟨-1, 0, 1, false⟩, ⟨0, 1, 1, false⟩], [], fun _ _ => 0, fun _ _ => 0, 0⟩

/-! ## Helper lemmas -/

theorem getD_set_self {α : Type} (l : List α) (n : Nat) (a d : α)
    (h : n < l.length) : (l.set n a).getD n d = a := by
  induction l generalizing n with
  | nil => simp at h
  | cons x xs ih =>
    cases n with
    | zero => rfl
    | succ m =>
      simp only [List.set, List.getD, List.get?]
      exact ih m (by simpa using h)

theorem npSet_ok {α : Type} (l : List α) (i : Int) (x : α) (l' : List α)
    (h : npSet l i x = .ok l') (hi : 0 ≤ i) :
    l' = l.set i.toNat x ∧ i < (l.length : Int) := by
  unfold npSet at h
  dsimp only at h
  rw [if_neg (not_lt.mpr hi)] at h
  split at h
  · injection h with h'
    exact ⟨h'.symm, by omega⟩
  · exact absurd h (by simp)

theorem walkCode_unbound_ne_ok (g : List GEdge) (T : Int) (fuel : Nat)
    (fwd rev : Int) (acc q : Rat) (h : T ≤ fwd) :
    walkCode g T fuel fwd none rev acc ≠ .ok q := by
  cases fuel with
  | zero => simp [walkCode]
  | succ n =>
    simp only [walkCode, if_neg (not_lt.mpr h)]
    cases hadj : gAdj g fwd with
    | nil => simp
    | cons a l =>
      obtain ⟨s1, sl, sd⟩ := a
      cases l with
      | nil => simp
      | cons b l2 =>
        obtain ⟨t1, tl, td⟩ := b
        cases l2 with
        | nil => simp
        | cons c l3 => simp

/-- The states of the intended walk inside the cyclic graph `gCyc`. -/
def cycStates : List (Int × Int) := [(3, 2), (4, 3), (2, 4)]

theorem walkIntended_gCyc_stuck (fuel : Nat) :
    ∀ fwd rev : Int, (fwd, rev) ∈ cycStates →
    ∀ acc : Rat, walkIntended gCyc 2 fuel fwd rev acc = none := by
  induction fuel with
  | zero => intro fwd rev _ acc; rfl
  | succ n ih =>
    intro fwd rev hmem acc
    simp only [cycStates, List.mem_cons, List.mem_singleton,
      Prod.mk.injEq, List.not_mem_nil, or_false] at hmem
    rcases hmem with ⟨h1, h2⟩ | ⟨h1, h2⟩ | ⟨h1, h2⟩ <;> subst h1 <;> subst h2
    · exact (show walkIntended gCyc 2 (n + 1) 3 2 acc
          = walkIntended gCyc 2 n 4 3 (acc + 1) from rfl).trans
        (ih 4 3 (by simp [cycStates]) (acc + 1))
    · exact (show walkIntended gCyc 2 (n + 1) 4 3 acc
          = walkIntended gCyc 2 n 2 4 (acc + 1) from rfl).trans
        (ih 2 4 (by simp [cycStates]) (acc + 1))
    · exact (show walkIntended gCyc 2 (n + 1) 2 4 acc
          = walkIntended gCyc 2 n 3 2 (acc + 1) from rfl).trans
        (ih 3 2 (by simp [cycStates]) (acc + 1))

/-! ## Claim theorems: extraction engine -/

/-- C1 counterexample: for the canonicalized edge `u = 0 < v = 1` with
`reverse = True`, the code selects origin `u = 0` and target `v = 1` —
the opposite of the claimed rule (origin `v`, target `u`) — and the
processed edge records its load 7 at row 0, leaving row 1 (the claimed
origin) untouched. -/
theorem C1_reverse_origin_counterexample :
    originTarget 0 1 true ≠ originTargetClaimed 0 1 true ∧
    stepEdge dC1 ⟨[0, 0], [0, 0], [0, 0]⟩ ⟨0, 1, 7, true⟩
      = .ok ⟨[1, 0], [3, 0], [7, 0]⟩ ∧
    (⟨[1, 0], [3, 0], [7, 0]⟩ : ExtractArrays).loads.getD 1 0 = 0 ∧
    (0 : Int) ≠ 7 := by
  refine ⟨by decide, by rfl, by rfl, by decide⟩

/-- C1 (amended): after canonicalizing so `u < v`, the origin is `u` and
the target is `v` when `reverse` is True, and the origin is `v` and the
target is `u` when `reverse` is False; the edge-processing step writes
the target into the terse-link array at index origin and the edge load
into the load array at index origin. -/
theorem C1_origin_target_amended (d : ExtractData) (arr arr' : ExtractArrays)
    (e : SEdge) (hok : stepEdge d arr e = .ok arr')
    (hi : 0 ≤ (originTarget e.u e.v e.reverse).1) :
    arr'.terse.getD (originTarget e.u e.v e.reverse).1.toNat 0
      = (originTarget e.u e.v e.reverse).2 ∧
    arr'.loads.getD (originTarget e.u e.v e.reverse).1.toNat 0 = e.load := by
  unfold stepEdge at hok
  dsimp only at hok
  cases h1 : npSet arr.terse (originTarget e.u e.v e.reverse).1
      (originTarget e.u e.v e.reverse).2 with
  | error m => rw [h1] at hok; exact absurd hok (by simp)
  | ok terse1 =>
    rw [h1] at hok
    dsimp only at hok
    cases h2 : npSet arr.loads (originTarget e.u e.v e.reverse).1 e.load with
    | error m => rw [h2] at hok; exact absurd hok (by simp)
    | ok loads1 =>
      rw [h2] at hok
      dsimp only at hok
      obtain ⟨hT, hTl⟩ := npSet_ok _ _ _ _ h1 hi
      obtain ⟨hL, hLl⟩ := npSet_ok _ _ _ _ h2 hi
      cases h3 : (if (canon e.u e.v).1 < 0 then
          (if gHasEdge d.g (canon e.u e.v).1 (canon e.u e.v).2 then
            Except.ok (d.d2roots (canon e.u e.v).2 (canon e.u e.v).1)
          else detourLength d.g d.T (canon e.u e.v).2 e.load (d.g.length + 1))
        else Except.ok (d.alen (canon e.u e.v).1 (canon e.u e.v).2)
          : Except String Rat) with
      | error m => rw [h3] at hok; exact absurd hok (by simp)
      | ok len =>
        rw [h3] at hok
        dsimp only at hok
        cases h4 : npSet arr.lengths (originTarget e.u e.v e.reverse).1 len with
        | error m => rw [h4] at hok; exact absurd hok (by simp)
        | ok lengths1 =>
          rw [h4] at hok
          dsimp only at hok
          injection hok with hok
          subst hok
          constructor
          · show terse1.getD _ 0 = _
            rw [hT]
            exact getD_set_self _ _ _ _ (by omega)
          · show loads1.getD _ 0 = _
            rw [hL]
            exact getD_set_self _ _ _ _ (by omega)

/-- C1 amended claim witness: the non-feeder edge `(1, 2)` with
`reverse = False` has origin 2 and target 1; after processing, row 2 of
the terse-link array holds 1 and row 2 of the load array holds the
load 5. -/
theorem C1_origin_target_amended_witness :
    (⟨[0, 0, 1], [0, 0, 3], [0, 0, 5]⟩ : ExtractArrays).terse.getD
        (originTarget 2 1 false).1.toNat 0 = (originTarget 2 1 false).2 ∧
    (⟨[0, 0, 1], [0, 0, 3], [0, 0, 5]⟩ : ExtractArrays).loads.getD
        (originTarget 2 1 false).1.toNat 0 = 5 :=
  C1_origin_target_amended dC1b ⟨[0, 0, 0], [0, 0, 0], [0, 0, 0]⟩
    ⟨[0, 0, 1], [0, 0, 3], [0, 0, 5]⟩ ⟨2, 1, 5, false⟩ (by rfl) (by decide)

/-- C2: the detour-chain walk carries no hop bound.  As written, the
loop body reads the never-assigned local `cur_hop` on its very first
iteration, so entering the walk on the cyclic relay graph `gCyc`
aborts with an UnboundLocalError (it never returns a value, for any
fuel); with that slip repaired as the spec intends, the walk has no
bounded-hop stop: it returns no result on `gCyc` for every fuel
allowance, i.e. it loops forever. -/
theorem C2_detour_walk_unbounded :
    (∀ (fuel : Nat) (acc q : Rat),
        walkCode gCyc 2 fuel 3 none 2 acc ≠ .ok q) ∧
    (∀ (fuel : Nat) (acc : Rat),
        walkIntended gCyc 2 fuel 3 2 acc = none) := by
  constructor
  · intro fuel acc q
    exact walkCode_unbound_ne_ok gCyc 2 fuel 3 2 acc q (by decide)
  · intro fuel acc
    exact walkIntended_gCyc_stuck fuel 3 2 (by simp [cycStates]) acc

/-- C3: on the well-formed segmented feeder `dDetour` (physical route
`0 – 1 – 2 – (-1)` with hop lengths 1, 2, 3), the extraction aborts
with an UnboundLocalError instead of recording the chain length, while
the walk described by the claim (first hop plus subsequent relay hops,
stopping below `T`) yields 1 + 2 + 3 = 6. -/
theorem C3_detour_length_code_bug :
    computeFull none dDetour = (none, .error "UnboundLocalError cur_hop") ∧
    walkIntended dDetour.g 1 4 1 0 1 = some 6 := by
  constructor
  · rfl
  · exact (show walkIntended dDetour.g 1 4 1 0 1 = some (1 + 2 + 3 : ℚ)
      from rfl).trans (by norm_num)

/-- C4: after a successful edge pass, `compute` checks that the sum of
per-turbine cable lengths equals `G.size(weight='length')` within 1e-7
absolute tolerance, raising (no outputs) on mismatch; whenever outputs
are returned, `total_length_cables` is exactly the sum of the
per-turbine lengths (and the conservation bound held). -/
theorem C4_length_conservation (st : ComponentState) (d : ExtractData) :
    (∀ arr, edgePass d = .ok arr →
      ¬ |arr.lengths.sum - gSize d.g| < 1 / 10 ^ 7 →
      (computeFull st d).2 = .error "AssertionError") ∧
    (∀ out, (computeFull st d).2 = .ok out →
      out.total_length_cables = out.length_cables.sum ∧
      |out.length_cables.sum - gSize d.g| < 1 / 10 ^ 7) := by
  constructor
  · intro arr harr hmiss
    simp only [computeFull, harr]
    rw [if_neg hmiss]
  · intro out hout
    unfold computeFull at hout
    cases harr : edgePass d with
    | error m => rw [harr] at hout; exact absurd hout (by simp)
    | ok arr =>
      rw [harr] at hout
      dsimp only at hout
      by_cases hc : |arr.lengths.sum - gSize d.g| < 1 / 10 ^ 7
      · rw [if_pos hc] at hout
        injection hout with hout
        subst hout
        exact ⟨rfl, hc⟩
      · rw [if_neg hc] at hout
        exact absurd hout (by simp)

/-- C4 witness: on the inconsistent table `dMismatch` (sum 7 against
graph size 5) the evaluation aborts with the assertion error; on the
consistent `dDirect`, the returned `total_length_cables` equals the sum
of the per-turbine lengths and the conservation bound holds. -/
theorem C4_length_conservation_witness :
    (computeFull none dMismatch).2 = .error "AssertionError" ∧
    ((⟨[-1], [5], [1], 1, 5⟩ : Outputs).total_length_cables
        = (⟨[-1], [5], [1], 1, 5⟩ : Outputs).length_cables.sum ∧
      |(⟨[-1], [5], [1], 1, 5⟩ : Outputs).length_cables.sum - gSize dDirect.g|
        < 1 / 10 ^ 7) :=
  ⟨(C4_length_conservation none dMismatch).1 ⟨[-1], [7], [1]⟩ (by rfl)
      (by simp [gSize, dMismatch]; norm_num),
    (C4_length_conservation none dDirect).2 ⟨[-1], [5], [1], 1, 5⟩
      (by simp only [computeFull,
            show edgePass dDirect = .ok ⟨[-1], [5], [1]⟩ from rfl]
          norm_num [gSize, dDirect])⟩

/-- C7 counterexample: after a completed evaluation on `dDirect`, the
realized collection graph is persisted in the component state
(`self.graph = G`), not discarded. -/
theorem C7_graph_not_discarded_counterexample :
    (computeFull none dDirect).1 = some dDirect.g ∧
    some dDirect.g ≠ (none : ComponentState) := by
  exact ⟨rfl, by simp⟩

/-- C7 (amended): whenever the edge pass completes, `compute` stores
the realized physical graph `G` in the component state for consumption
by the subsequent gradient evaluation (only a failing edge pass leaves
the state untouched); the solved topology graph `S` is not retained. -/
theorem C7_graph_persisted (st : ComponentState) (d : ExtractData)
    (h : ∃ arr, edgePass d = .ok arr) :
    (computeFull st d).1 = some d.g := by
  obtain ⟨arr, harr⟩ := h
  simp [computeFull, harr]

/-- C7 amended claim witness at the concrete input `dDirect`. -/
theorem C7_graph_persisted_witness :
    (computeFull none dDirect).1 = some dDirect.g :=
  C7_graph_persisted none dDirect ⟨⟨[-1], [5], [1]⟩, by rfl⟩

/-- C9: if every solved edge's origin is a turbine index, the origins
are pairwise distinct, and the solved graph has exactly `T` edges (the
shape of a solved collection forest), then every turbine index
`0 .. T-1` is the origin of exactly one edge of the pass — no gaps and
no duplicates among the rows written to the terse-link array. -/
theorem C9_terse_totality (d : ExtractData)
    (h1 : ∀ e ∈ d.sedges, 0 ≤ originOf e ∧ originOf e < (d.T : Int))
    (h2 : (d.sedges.map originOf).Nodup)
    (h3 : d.sedges.length = d.T) :
    ∀ t : Int, 0 ≤ t → t < (d.T : Int) →
      (d.sedges.map originOf).count t = 1 := by
  intro t ht0 htT
  have hlen : (d.sedges.map originOf).length = d.T := by
    rw [List.length_map, h3]
  have hsub : (d.sedges.map originOf).toFinset ⊆ Finset.Ico 0 (d.T : Int) := by
    intro x hx
    rw [List.mem_toFinset] at hx
    obtain ⟨e, he, hex⟩ := List.mem_map.mp hx
    obtain ⟨hx0, hxT⟩ := h1 e he
    exact Finset.mem_Ico.mpr ⟨by omega, by omega⟩
  have hcard : (Finset.Ico 0 (d.T : Int)).card
      ≤ (d.sedges.map originOf).toFinset.card := by
    rw [List.toFinset_card_of_nodup h2, hlen, Int.card_Ico]
    simp
  have heq := Finset.eq_of_subset_of_card_le hsub hcard
  have htmem : t ∈ (d.sedges.map originOf).toFinset := by
    rw [heq]
    exact Finset.mem_Ico.mpr ⟨ht0, htT⟩
  exact List.count_eq_one_of_mem h2 (List.mem_toFinset.mp htmem)

/-- C9 witness: for the two-edge solved graph `d9` (origins 0 and 1),
turbine 0 is the origin of exactly one edge. -/
theorem C9_terse_totality_witness :
    (d9.sedges.map originOf).count 0 = 1 :=
  C9_terse_totality d9 (by decide) (by decide) (by rfl) 0 (by decide) (by decide)

/-! ## Geometry engine (`ard/utils/geometry.py`)

Machine floats are modelled as rationals.  The code zero-pads 2-D
segment inputs to 3-D before the segment–segment computation, so that
computation is embedded over 3-vectors (2-D inputs are the instances
with vanishing third coordinate); the polygon code works on 2-vectors
directly. -/

/-- A 2-D point or vector. -/
abbrev Vec2 : Type := ℚ × ℚ

/-- A 3-D point or vector (the zero-padded form used by
`distance_lineseg_to_lineseg_nd`). -/
abbrev Vec3 : Type := ℚ × ℚ × ℚ

/-- Modelled from the spec: the smooth primitives `smooth_min`,
`smooth_max` and `smooth_norm` live in `ard/utils/mathematics.py`,
which is not among the provided sources; the spec fixes only that they
are differentiable approximations of min/max (log-sum-exp family,
parameterized by a sharpness constant) and of the Euclidean norm, so
they are carried as parameters of the geometry embedding.  `smin s xs`
is `smooth_min(xs, s=s)`; `sminD xs` is `smooth_min(xs)` at its default
sharpness; `smax s xs` is `smooth_max(xs, s=s)`; `snorm` / `snorm2` are
`smooth_norm` on 3-D / 2-D vectors. -/
structure SmoothFns where
  smin : ℚ → List ℚ → ℚ
  sminD : List ℚ → ℚ
  smax : ℚ → List ℚ → ℚ
  snorm : Vec3 → ℚ
  snorm2 : Vec2 → ℚ

/-- Dot product of 3-vectors. -/
def dot3 (a b : Vec3) : ℚ :=
  a.1 * b.1 + a.2.1 * b.2.1 + a.2.2 * b.2.2

/-- Dot product of 2-vectors. -/
def dot2 (a b : Vec2) : ℚ :=
  a.1 * b.1 + a.2 * b.2

/-- Cross product `jnp.cross` of 3-vectors. -/
def cross3 (a b : Vec3) : Vec3 :=
  (a.2.1 * b.2.2 - a.2.2 * b.2.1,
   a.2.2 * b.1 - a.1 * b.2.2,
   a.1 * b.2.1 - a.2.1 * b.1)

/-- Determinant of the 3×3 matrix with the given rows (the code takes
`jnp.linalg.det` of the transpose of the stacked vectors, which is the
same value), as the scalar triple product. -/
def det3 (r1 r2 r3 : Vec3) : ℚ :=
  dot3 r1 (cross3 r2 r3)

/-- `get_closest_point_on_line_seg` (3-D instance): project onto the
segment's parametric line and clamp the parameter to `[0, 1]`. -/
def get_closest_point_on_line_seg3 (point segment_start segment_end
    segment_vector : Vec3) : Vec3 :=
  let projection := dot3 (point - segment_start) segment_vector
    / dot3 segment_vector segment_vector
  if projection < 0 then segment_start
  else if projection > 1 then segment_end
  else segment_start + projection • segment_vector

/-- `distance_point_to_lineseg_nd` (3-D instance): distance to the
segment's endpoint when the segment degenerates to a point, else the
smooth norm of the offset to the clamped closest point. -/
def distance_point_to_lineseg_3d (sf : SmoothFns)
    (point segment_start segment_end : Vec3) : ℚ :=
  let segment_vector := segment_end - segment_start
  if segment_vector = 0 then sf.snorm (segment_start - point)
  else sf.snorm (point -
    get_closest_point_on_line_seg3 point segment_start segment_end segment_vector)

/-- `get_closest_point_on_line_seg` (2-D instance, as invoked from the
polygon code). -/
def get_closest_point_on_line_seg2 (point segment_start segment_end
    segment_vector : Vec2) : Vec2 :=
  let projection := dot2 (point - segment_start) segment_vector
    / dot2 segment_vector segment_vector
  if projection < 0 then segment_start
  else if projection > 1 then segment_end
  else segment_start + projection • segment_vector

/-- `distance_point_to_lineseg_nd` (2-D instance). -/
def distance_point_to_lineseg_2d (sf : SmoothFns)
    (point segment_start segment_end : Vec2) : ℚ :=
  let segment_vector := segment_end - segment_start
  if segment_vector = 0 then sf.snorm2 (segment_start - point)
  else sf.snorm2 (point -
    get_closest_point_on_line_seg2 point segment_start segment_end segment_vector)

/-- `_distance_lineseg_to_lineseg_coplanar`: smooth minimum of the four
endpoint-to-opposite-segment distances. -/
def distance_lineseg_coplanar (sf : SmoothFns) (a1 a2 b1 b2 : Vec3) : ℚ :=
  sf.sminD [distance_point_to_lineseg_3d sf a1 b1 b2,
            distance_point_to_lineseg_3d sf a2 b1 b2,
            distance_point_to_lineseg_3d sf b1 a1 a2,
            distance_point_to_lineseg_3d sf b2 a1 a2]

/-- `distance_lineseg_to_lineseg_nd` after the zero-padding step:
degenerate-segment reductions, the near-parallel coplanar fallback when
the denominator is at most `tol`, and otherwise the clamped parametric
closest-approach solution combined with the two cross point-to-segment
distances through the smooth minimum. -/
def distance_lineseg_to_lineseg_nd (sf : SmoothFns) (tol : ℚ)
    (line_a_start line_a_end line_b_start line_b_end : Vec3) : ℚ :=
  let line_a_vector := line_a_end - line_a_start
  let line_b_vector := line_b_end - line_b_start
  if line_a_vector = 0 then
    distance_point_to_lineseg_3d sf line_a_start line_b_start line_b_end
  else if line_b_vector = 0 then
    distance_point_to_lineseg_3d sf line_b_start line_a_start line_a_end
  else
    let denominator := sf.snorm (cross3 line_b_vector line_a_vector) ^ 2
    if denominator ≤ tol then
      distance_lineseg_coplanar sf line_a_start line_a_end line_b_start line_b_end
    else
      let s := det3 (line_a_start - line_b_start) line_b_vector
        (cross3 line_b_vector line_a_vector) / denominator
      let t := det3 (line_a_start - line_b_start) line_a_vector
        (cross3 line_b_vector line_a_vector) / denominator
      let closest_point_line_a :=
        if s > 1 then line_a_end
        else if s < 0 then line_a_start
        else line_a_start + s • line_a_vector
      let closest_point_line_b :=
        if t > 1 then line_b_end
        else if t < 0 then line_b_start
        else line_b_start + t • line_b_vector
      sf.sminD [sf.snorm (closest_point_line_b - closest_point_line_a),
        distance_point_to_lineseg_3d sf closest_point_line_a
          line_b_start line_b_end,
        distance_point_to_lineseg_3d sf closest_point_line_b
          line_a_start line_a_end]

/-- The closed edge loop of a polygon: the vertex list with the first
vertex appended, zipped with its own tail (the code's
`vstack([vertices, vertices[0]])` then `zip(v[:-1], v[1:])`; an empty
vertex list, an IndexError in the source, is mapped to no edges). -/
def polygonEdges (vertices : List Vec2) : List (Vec2 × Vec2) :=
  match vertices with
  | [] => []
  | v0 :: _ => (vertices ++ [v0]).zip (vertices ++ [v0]).tail

/-- The smoothed ray test of `process_edge`: whether the horizontal ray
from `point` crosses this edge below the point, with the `shift`
epsilon guarding a vertical edge's slope denominator. -/
def edgeIsBelow (shift : ℚ) (point edge_start edge_end : Vec2) : Bool :=
  let xcond := (edge_start.1 ≤ point.1 ∧ point.1 < edge_end.1) ∨
    (edge_start.1 ≥ point.1 ∧ point.1 > edge_end.1)
  let y := (edge_end.2 - edge_start.2) / (edge_end.1 - edge_start.1 + shift)
    * (point.1 - edge_start.1) + edge_start.2
  decide (xcond ∧ point.2 < y)

/-- The vector of point-to-edge distances computed by the vmapped
`process_edge`. -/
def edgeDistances (sf : SmoothFns) (point : Vec2) (vertices : List Vec2) :
    List ℚ :=
  (polygonEdges vertices).map
    (fun e => distance_point_to_lineseg_2d sf point e.1 e.2)

/-- `jnp.sum(is_below)`: the number of edges the horizontal ray crosses
below the point. -/
def intersectionCounter (shift : ℚ) (point : Vec2) (vertices : List Vec2) :
    Nat :=
  ((polygonEdges vertices).filter
    (fun e => edgeIsBelow shift point e.1 e.2)).length

/-- `distance_point_to_polygon_ray_casting`: smooth minimum of the edge
distances, negated when the crossing count is odd; with
`return_distance=False` only the inside/outside sign `±1`. -/
def distance_point_to_polygon_ray_casting (sf : SmoothFns) (s shift : ℚ)
    (point : Vec2) (vertices : List Vec2) (return_distance : Bool) : ℚ :=
  if return_distance then
    let c := sf.smin s (edgeDistances sf point vertices)
    if intersectionCounter shift point vertices % 2 = 1 then -c else c
  else
    if intersectionCounter shift point vertices % 2 = 1 then -1 else 1

/-! ### The multi-point / multi-polygon dispatcher -/

/-- The parameter list of `distance_point_to_polygon_ray_casting`
(`point, vertices, s=700, shift=1e-10, return_distance=True`). -/
def rayCastingParams : List String :=
  ["point", "vertices", "s", "shift", "return_distance"]

/-- Python call binding: `npos` positional arguments fill the first
`npos` parameter slots; a keyword argument naming one of those slots is
a duplicate binding, which the interpreter rejects with a TypeError
before the function body runs. -/
def bindCall (params : List String) (npos : Nat) (kw : List String) :
    Except String Unit :=
  if kw.any (fun k => (params.take npos).contains k) then
    .error "TypeError multiple values"
  else .ok ()

/-- The call the dispatcher makes at every point,
`distance_point_to_polygon_ray_casting(pt, vertices, normals, s=s,
shift=tol, ...)`: three positional arguments — the third being the
normals array — plus the keywords `s` and `shift`, bound against
`rayCastingParams`; only if binding succeeded would the body run. -/
def dispatchPointPolyCall (sf : SmoothFns) (s tol : ℚ) (point : Vec2)
    (vertices : List Vec2) (return_distance : Bool) : Except String ℚ :=
  match bindCall rayCastingParams 3 ["s", "shift"] with
  | .error m => .error m
  | .ok _ =>
    .ok (distance_point_to_polygon_ray_casting sf s tol point vertices
      return_distance)

/-- The boundary argument of the dispatcher: a single polygon
(`discrete=False`) or a list of discrete regions (`discrete=True`),
each with its (unused by the distance computation) normals. -/
inductive BoundaryInput where
  | single (vertices : List Vec2) (normals : List Vec2)
  | multiple (vertices : List (List Vec2)) (normals : List (List Vec2))

/-- What the dispatcher returns: just the constraint array, or the
constraint array together with the region-assignment array. -/
inductive DispatchResult where
  | constraintsOnly (c : List ℚ)
  | withRegions (c : List ℚ) (region : List Nat)
deriving DecidableEq

/-- `np.argmin`: index of the first minimal element. -/
def listArgmin (l : List ℚ) : Nat :=
  match l with
  | [] => 0
  | x :: _ => (l.enum.foldl
      (fun best p => if p.2 < best.2 then p else best) (0, x)).1

/-- The unknown-assignment inner scan: regions are tested in input
order; the first region containing the point (membership call with
`return_distance=False` giving a nonpositive value) wins, its distance
is recomputed with `return_distance=True`, and its index is recorded
only when `return_region` is set. -/
def regionScan (call : Vec2 → List Vec2 → Bool → Except String ℚ)
    (return_region : Bool) (point : Vec2) :
    List (Nat × List Vec2) → Except String (Option (ℚ × Nat))
  | [] => .ok none
  | (k, vs) :: rest =>
    match call point vs false with
    | .error m => .error m
    | .ok ctmp =>
      if ctmp ≤ 0 then
        match call point vs true with
        | .error m => .error m
        | .ok c => .ok (some (c, if return_region then k else 0))
      else regionScan call return_region point rest

/-- One point of the unknown-assignment branch: scan the regions; if
none contains the point, compute the distance to every region, return
the negated smooth max of the negated distances and record the arg-min
region. -/
def unknownPointEval (call : Vec2 → List Vec2 → Bool → Except String ℚ)
    (sf : SmoothFns) (s : ℚ) (vss : List (List Vec2))
    (return_region : Bool) (point : Vec2) : Except String (ℚ × Nat) :=
  match regionScan call return_region point vss.enum with
  | .error m => .error m
  | .ok (some r) => .ok r
  | .ok none =>
    match vss.mapM (fun vs => call point vs true) with
    | .error m => .error m
    | .ok dists =>
      .ok (-(sf.smax s (dists.map (fun x => -x))), listArgmin dists)

/-- The dispatcher skeleton of
`distance_multi_point_to_multi_polygon_ray_casting`, generic in the
per-point polygon call: the single-region branch, the
predefined-assignment branch (`regions` non-empty, modelling
`regions is not None and len(regions) > 0`; region indices read with a
default, the source would raise IndexError out of range), and the
unknown-assignment branch, which alone can return the region array. -/
def dispatchWith (call : Vec2 → List Vec2 → Bool → Except String ℚ)
    (sf : SmoothFns) (s : ℚ) (boundary : BoundaryInput)
    (points : List Vec2) (return_region : Bool) (regions : List Nat) :
    Except String DispatchResult :=
  match boundary with
  | .single vs _ =>
    match points.mapM (fun pt => call pt vs true) with
    | .error m => .error m
    | .ok c => .ok (.constraintsOnly c)
  | .multiple vss _ =>
    if regions ≠ [] then
      match points.enum.mapM
          (fun p => call p.2 (vss.getD (regions.getD p.1 0) []) true) with
      | .error m => .error m
      | .ok c => .ok (.constraintsOnly c)
    else
      match points.mapM (unknownPointEval call sf s vss return_region) with
      | .error m => .error m
      | .ok rs =>
        if return_region then
          .ok (.withRegions (rs.map Prod.fst) (rs.map Prod.snd))
        else .ok (.constraintsOnly (rs.map Prod.fst))

/-- `distance_multi_point_to_multi_polygon_ray_casting` as written: the
dispatcher whose every per-point call passes the normals array as a
third positional argument together with the keyword `s`. -/
def distance_multi_point_to_multi_polygon_ray_casting (sf : SmoothFns)
    (s tol : ℚ) (boundary : BoundaryInput) (points : List Vec2)
    (return_region : Bool) (regions : List Nat) :
    Except String DispatchResult :=
  dispatchWith (dispatchPointPolyCall sf s tol) sf s boundary points
    return_region regions

/-- Modelled from the spec: the dispatcher as §4.1 describes it, i.e.
the same skeleton with the per-point call repaired to pass only
`(point, vertices)` positionally (the vestigial normals argument
dropped), so every call succeeds. -/
def dispatchRepaired (sf : SmoothFns) (s tol : ℚ)
    (boundary : BoundaryInput) (points : List Vec2)
    (return_region : Bool) (regions : List Nat) :
    Except String DispatchResult :=
  dispatchWith
    (fun pt vs rd =>
      .ok (distance_point_to_polygon_ray_casting sf s tol pt vs rd))
    sf s boundary points return_region regions

/-! ### Concrete geometry test vectors -/

/-- A smooth-function bundle whose min/max are the constant 1 and whose
norms are the squared Euclidean norms. -/
def sfOne : SmoothFns :=
  ⟨fun _ _ => 1, fun l => l.sum, fun _ _ => 1,
   fun v => dot3 v v, fun v => dot2 v v⟩

/-- A smooth-function bundle whose min/max are list sums (permutation
invariant) and whose norms are the squared Euclidean norms (even). -/
def sfSum : SmoothFns :=
  ⟨fun _ l => l.sum, fun l => l.sum, fun _ l => l.sum,
   fun v => dot3 v v, fun v => dot2 v v⟩

/-- A triangle used as a concrete region. -/
def triA : List Vec2 := [(0, 0), (2, 0), (0, 2)]

/-- A second, disjoint triangle. -/
def triB : List Vec2 := [(10, 0), (12, 0), (10, 2)]

/-- A concrete query point. -/
def ptW : Vec2 := (5, 5)

/-! ### Helper lemmas for the geometry proofs -/

theorem cross3_skew (u v : Vec3) : cross3 u v = -cross3 v u := by
  obtain ⟨u1, u2, u3⟩ := u
  obtain ⟨v1, v2, v3⟩ := v
  simp only [cross3, Prod.neg_mk, Prod.mk.injEq]
  refine ⟨by ring, by ring, by ring⟩

theorem det3_symm_aux (x u w : Vec3) : det3 (-x) u (-w) = det3 x u w := by
  obtain ⟨x1, x2, x3⟩ := x
  obtain ⟨u1, u2, u3⟩ := u
  obtain ⟨w1, w2, w3⟩ := w
  simp only [det3, dot3, cross3, Prod.neg_mk]
  ring

theorem perm_four {α : Type} (a b c d : α) :
    ([a, b, c, d] : List α).Perm [c, d, a, b] := by
  have h := @List.perm_append_comm α [a, b] [c, d]
  simpa using h

theorem segseg_final_step (sf : SmoothFns)
    (hne : ∀ v : Vec3, sf.snorm (-v) = sf.snorm v)
    (hperm : ∀ l1 l2 : List ℚ, l1.Perm l2 → sf.sminD l1 = sf.sminD l2)
    (cpa cpb : Vec3) (x y : ℚ) :
    sf.sminD [sf.snorm (cpb - cpa), x, y]
      = sf.sminD [sf.snorm (cpa - cpb), y, x] := by
  rw [show cpa - cpb = -(cpb - cpa) from (neg_sub _ _).symm, hne]
  exact hperm _ _ (List.Perm.cons _ (List.Perm.swap _ _ _))

/-! ## Claim theorems: geometry engine -/

/-- C5: whenever the smooth minimum of the edge distances is positive
(the distance-like regime of the spec-modelled smooth min), the signed
point-to-polygon distance has magnitude equal to that smooth minimum
(with sharpness `s`) over the point-to-segment distances to all edges
of the closed polygon, and is negative exactly when the horizontal-ray
crossing count over the edges is odd, positive exactly when the count
is even. -/
theorem C5_polygon_signed_distance (sf : SmoothFns) (s shift : ℚ)
    (point : Vec2) (vertices : List Vec2)
    (hpos : 0 < sf.smin s (edgeDistances sf point vertices)) :
    |distance_point_to_polygon_ray_casting sf s shift point vertices true|
      = sf.smin s (edgeDistances sf point vertices) ∧
    (distance_point_to_polygon_ray_casting sf s shift point vertices true < 0
      ↔ intersectionCounter shift point vertices % 2 = 1) ∧
    (0 < distance_point_to_polygon_ray_casting sf s shift point vertices true
      ↔ intersectionCounter shift point vertices % 2 = 0) := by
  unfold distance_point_to_polygon_ray_casting
  simp only [if_true]
  by_cases hodd : intersectionCounter shift point vertices % 2 = 1
  · simp only [if_pos hodd]
    refine ⟨by rw [abs_neg, abs_of_pos hpos], ?_, ?_⟩
    · exact iff_of_true (neg_lt_zero.mpr hpos) hodd
    · refine iff_of_false (not_lt.mpr (neg_lt_zero.mpr hpos).le) ?_
      omega
  · simp only [if_neg hodd]
    refine ⟨abs_of_pos hpos, ?_, ?_⟩
    · exact iff_of_false (not_lt.mpr hpos.le) hodd
    · refine iff_of_true hpos ?_
      omega

/-- C5 witness at the concrete smooth bundle `sfOne` (smooth min
constantly 1), triangle `triA` and point `ptW`. -/
theorem C5_polygon_signed_distance_witness :
    |distance_point_to_polygon_ray_casting sfOne 700 (1 / 10 ^ 6) ptW triA true|
      = sfOne.smin 700 (edgeDistances sfOne ptW triA) ∧
    (distance_point_to_polygon_ray_casting sfOne 700 (1 / 10 ^ 6) ptW triA true
        < 0
      ↔ intersectionCounter (1 / 10 ^ 6) ptW triA % 2 = 1) ∧
    (0 < distance_point_to_polygon_ray_casting sfOne 700 (1 / 10 ^ 6) ptW
        triA true
      ↔ intersectionCounter (1 / 10 ^ 6) ptW triA % 2 = 0) :=
  C5_polygon_signed_distance sfOne 700 (1 / 10 ^ 6) ptW triA
    (by norm_num [sfOne])

/-- C8: the segment-to-segment distance is symmetric under swapping the
two segments, for every smooth bundle whose norm is even and whose
smooth min is permutation invariant (as any log-sum-exp family member
is), covering degenerate, near-parallel and skew cases alike. -/
theorem C8_segment_distance_symmetric (sf : SmoothFns)
    (hne : ∀ v : Vec3, sf.snorm (-v) = sf.snorm v)
    (hperm : ∀ l1 l2 : List ℚ, l1.Perm l2 → sf.sminD l1 = sf.sminD l2)
    (tol : ℚ) (a1 a2 b1 b2 : Vec3) :
    distance_lineseg_to_lineseg_nd sf tol a1 a2 b1 b2
      = distance_lineseg_to_lineseg_nd sf tol b1 b2 a1 a2 := by
  unfold distance_lineseg_to_lineseg_nd
  dsimp only
  by_cases ha : a2 - a1 = 0 <;> by_cases hb : b2 - b1 = 0
  · simp only [if_pos ha, if_pos hb]
    unfold distance_point_to_lineseg_3d
    dsimp only
    simp only [if_pos ha, if_pos hb]
    rw [show a1 - b1 = -(b1 - a1) from (neg_sub _ _).symm, hne]
  · simp only [if_pos ha, if_neg hb]
  · simp only [if_neg ha, if_pos hb]
  · simp only [if_neg ha, if_neg hb]
    have hw : cross3 (a2 - a1) (b2 - b1) = -cross3 (b2 - b1) (a2 - a1) :=
      cross3_skew _ _
    rw [hw, hne (cross3 (b2 - b1) (a2 - a1))]
    have hs : det3 (b1 - a1) (a2 - a1) (-cross3 (b2 - b1) (a2 - a1))
        = det3 (a1 - b1) (a2 - a1) (cross3 (b2 - b1) (a2 - a1)) := by
      rw [show b1 - a1 = -(a1 - b1) from (neg_sub _ _).symm]
      exact det3_symm_aux _ _ _
    have ht : det3 (b1 - a1) (b2 - b1) (-cross3 (b2 - b1) (a2 - a1))
        = det3 (a1 - b1) (b2 - b1) (cross3 (b2 - b1) (a2 - a1)) := by
      rw [show b1 - a1 = -(a1 - b1) from (neg_sub _ _).symm]
      exact det3_symm_aux _ _ _
    rw [hs, ht]
    by_cases hden : sf.snorm (cross3 (b2 - b1) (a2 - a1)) ^ 2 ≤ tol
    · simp only [if_pos hden]
      unfold distance_lineseg_coplanar
      exact hperm _ _ (perm_four _ _ _ _)
    · simp only [if_neg hden]
      exact segseg_final_step sf hne hperm _ _ _ _

/-- C8 witness: concrete application to two parallel unit segments with
the sum-based permutation-invariant bundle `sfSum`. -/
theorem C8_segment_distance_symmetric_witness :
    distance_lineseg_to_lineseg_nd sfSum 0 (0, 0, 0) (1, 0, 0) (0, 1, 0)
        (1, 1, 0)
      = distance_lineseg_to_lineseg_nd sfSum 0 (0, 1, 0) (1, 1, 0) (0, 0, 0)
        (1, 0, 0) :=
  C8_segment_distance_symmetric sfSum
    (fun v => by
      show dot3 (-v) (-v) = dot3 v v
      obtain ⟨x, y, z⟩ := v
      simp only [dot3, Prod.neg_mk]
      ring)
    (fun _ _ h => h.sum_eq) 0 _ _ _ _

/-- C10: as written, the predefined-assignment branch never returns at
all — every per-point call passes the normals array as a third
positional argument (landing in the `s` slot) together with the keyword
`s`, a TypeError; with that call slip repaired, the branch behaves as
the claim states: for a discrete boundary with non-empty region
assignments it returns only the per-point constraint array computed
against each point's assigned region, for every value of the
`return_region` flag, and the region array is produced only in the
unknown-assignment branch. -/
theorem C10_regions_branch_code_bug :
    distance_multi_point_to_multi_polygon_ray_casting sfOne 700 (1 / 10 ^ 6)
        (.multiple [triA, triB] [[], []]) [ptW] true [1]
      = .error "TypeError multiple values" ∧
    (∀ rr : Bool, dispatchRepaired sfOne 700 (1 / 10 ^ 6)
        (.multiple [triA, triB] [[], []]) [ptW] rr [1]
      = .ok (.constraintsOnly
          [distance_point_to_polygon_ray_casting sfOne 700 (1 / 10 ^ 6) ptW
            triB true])) ∧
    dispatchRepaired sfOne 700 (1 / 10 ^ 6) (.multiple [triA, triB] [[], []])
        [] true []
      = .ok (.withRegions [] []) := by
  refine ⟨rfl, fun rr => rfl, rfl⟩

/-! ## Gradient assembly (`compute_partials`), over the reals

`compute_partials` recomputes edge lengths from coordinates with
`np.hypot`, an irrational square root, so this part of the embedding
lives in `ℝ`. -/

/-- Wraparound of a (possibly negative) numpy row index into an array
of `n` rows (`VertexC[_u]`, `gradients[_u]` with substations indexed
`-1 .. -R`). -/
def wrapIdx (n : Nat) (i : Int) : Nat :=
  (if i < 0 then (n : Int) + i else i).toNat

/-- Application of the optional `fnT` node-to-coordinate remapping of
relay/detour node indices (`fnT[np.array(G.edges)]` when present,
identity otherwise). -/
def applyFnT (fnT : Option (Int → Int)) (i : Int) : Int :=
  match fnT with
  | none => i
  | some f => f i

/-- `np.hypot` on a coordinate difference. -/
noncomputable def hypot (v : ℝ × ℝ) : ℝ :=
  Real.sqrt (v.1 ^ 2 + v.2 ^ 2)

/-- One edge's direction contribution `vec / norm`: the difference of
the endpoint coordinates divided by its length, except that a length
within the `np.isclose` tolerance of zero (`|norm| ≤ 1e-8`) has its
denominator replaced by 1 (`norm[np.isclose(norm, 0.0)] = 1.0`). -/
noncomputable def unitContrib (VC : List (ℝ × ℝ)) (fnT : Option (Int → Int))
    (e : Int × Int) : ℝ × ℝ :=
  let u := wrapIdx VC.length (applyFnT fnT e.1)
  let v := wrapIdx VC.length (applyFnT fnT e.2)
  let vec := VC.getD u 0 - VC.getD v 0
  let n := hypot vec
  let n1 := if |n| ≤ 1 / 10 ^ 8 then 1 else n
  (vec.1 / n1, vec.2 / n1)

/-- In-place accumulation at one row, as `np.add.at` does per index
(an out-of-range row, an IndexError in numpy, is left unchanged). -/
def updAt {V : Type} [Add V] : List V → Nat → V → List V
  | [], _, _ => []
  | x :: xs, 0, w => (x + w) :: xs
  | x :: xs, n + 1, w => x :: updAt xs n w

/-- The gradient accumulation of `compute_partials`: a zero array of
`VertexC`'s shape, `np.add.at(gradients, _u, vec)` over all edges, then
`np.subtract.at(gradients, _v, vec)` over all edges. -/
noncomputable def gradientsList (VC : List (ℝ × ℝ))
    (fnT : Option (Int → Int)) (edges : List (Int × Int)) :
    List (ℝ × ℝ) :=
  let init : List (ℝ × ℝ) := List.replicate VC.length 0
  let afterAdd := edges.foldl
    (fun g e => updAt g (wrapIdx VC.length (applyFnT fnT e.1))
      (unitContrib VC fnT e)) init
  edges.foldl
    (fun g e => updAt g (wrapIdx VC.length (applyFnT fnT e.2))
      (-unitContrib VC fnT e)) afterAdd

/-- `J["total_length_cables", "x_turbines"] = gradients[:T, 0]`. -/
noncomputable def jac_x_turbines (VC : List (ℝ × ℝ))
    (fnT : Option (Int → Int)) (edges : List (Int × Int)) (T : Nat) :
    List ℝ :=
  ((gradientsList VC fnT edges).take T).map Prod.fst

/-- `J["total_length_cables", "y_turbines"] = gradients[:T, 1]`. -/
noncomputable def jac_y_turbines (VC : List (ℝ × ℝ))
    (fnT : Option (Int → Int)) (edges : List (Int × Int)) (T : Nat) :
    List ℝ :=
  ((gradientsList VC fnT edges).take T).map Prod.snd

/-- `J["total_length_cables", "x_substations"] = gradients[-R:, 0]`. -/
noncomputable def jac_x_substations (VC : List (ℝ × ℝ))
    (fnT : Option (Int → Int)) (edges : List (Int × Int)) (R : Nat) :
    List ℝ :=
  ((gradientsList VC fnT edges).drop (VC.length - R)).map Prod.fst

/-- `J["total_length_cables", "y_substations"] = gradients[-R:, 1]`. -/
noncomputable def jac_y_substations (VC : List (ℝ × ℝ))
    (fnT : Option (Int → Int)) (edges : List (Int × Int)) (R : Nat) :
    List ℝ :=
  ((gradientsList VC fnT edges).drop (VC.length - R)).map Prod.snd

/-! ### Fold/accumulation lemmas -/

theorem updAt_length {V : Type} [Add V] (l : List V) (i : Nat) (w : V) :
    (updAt l i w).length = l.length := by
  induction l generalizing i with
  | nil => rfl
  | cons x xs ih =>
    cases i with
    | zero => rfl
    | succ j => simp [updAt, ih]

theorem getD_updAt {V : Type} [AddMonoid V] (l : List V) (i p : Nat) (w : V) :
    (updAt l i w).getD p 0
      = l.getD p 0 + (if i = p ∧ p < l.length then w else 0) := by
  induction l generalizing i p with
  | nil => simp [updAt]
  | cons x xs ih =>
    cases i with
    | zero =>
      cases p with
      | zero => simp [updAt]
      | succ q => simp [updAt]
    | succ j =>
      cases p with
      | zero => simp [updAt]
      | succ q =>
        simp only [updAt, List.getD_cons_succ, List.length_cons]
        rw [ih]
        congr 1
        refine if_congr ?_ rfl rfl
        omega

theorem foldl_updAt_length {V : Type} [Add V] {E : Type} (idx : E → Nat)
    (wt : E → V) (edges : List E) (g0 : List V) :
    (edges.foldl (fun g e => updAt g (idx e) (wt e)) g0).length
      = g0.length := by
  induction edges generalizing g0 with
  | nil => rfl
  | cons e es ih =>
    simp only [List.foldl_cons]
    rw [ih, updAt_length]

theorem getD_foldl_updAt {V : Type} [AddCommMonoid V] {E : Type}
    (idx : E → Nat) (wt : E → V) (edges : List E) (g0 : List V) (p : Nat)
    (hp : p < g0.length) :
    (edges.foldl (fun g e => updAt g (idx e) (wt e)) g0).getD p 0
      = g0.getD p 0
        + (edges.map (fun e => if idx e = p then wt e else 0)).sum := by
  induction edges generalizing g0 with
  | nil => simp
  | cons e es ih =>
    simp only [List.foldl_cons, List.map_cons, List.sum_cons]
    rw [ih (updAt g0 (idx e) (wt e)) (by rw [updAt_length]; exact hp),
      getD_updAt]
    have hcond : (if idx e = p ∧ p < g0.length then wt e else 0)
        = (if idx e = p then wt e else 0) := by
      by_cases h : idx e = p
      · simp [h, hp]
      · simp [h]
    rw [hcond, add_assoc]

theorem getD_replicate_zero {V : Type} [Zero V] (n p : Nat) :
    (List.replicate n (0 : V)).getD p 0 = 0 := by
  induction n generalizing p with
  | zero => simp
  | succ m ih =>
    cases p with
    | zero => simp [List.replicate]
    | succ q => simp [List.replicate, ih q]

theorem sum_map_neg_ite {V : Type} [SubtractionCommMonoid V] {E : Type}
    (l : List E) (c : E → Prop) [DecidablePred c] (f : E → V) :
    (l.map (fun e => if c e then -f e else 0)).sum
      = -(l.map (fun e => if c e then f e else 0)).sum := by
  induction l with
  | nil => simp
  | cons e es ih =>
    simp only [List.map_cons, List.sum_cons, ih, neg_add]
    by_cases h : c e <;> simp [h, add_comm]

theorem gradientsList_length (VC : List (ℝ × ℝ))
    (fnT : Option (Int → Int)) (edges : List (Int × Int)) :
    (gradientsList VC fnT edges).length = VC.length := by
  unfold gradientsList
  dsimp only
  rw [foldl_updAt_length, foldl_updAt_length, List.length_replicate]

theorem gradientsList_getD (VC : List (ℝ × ℝ))
    (fnT : Option (Int → Int)) (edges : List (Int × Int)) (p : Nat)
    (hp : p < VC.length) :
    (gradientsList VC fnT edges).getD p 0
      = (edges.map (fun e =>
          if wrapIdx VC.length (applyFnT fnT e.1) = p
            then unitContrib VC fnT e else 0)).sum
        - (edges.map (fun e =>
          if wrapIdx VC.length (applyFnT fnT e.2) = p
            then unitContrib VC fnT e else 0)).sum := by
  unfold gradientsList
  dsimp only
  rw [getD_foldl_updAt _ _ _ _ p
      (by rw [foldl_updAt_length, List.length_replicate]; exact hp),
    getD_foldl_updAt _ _ _ _ p (by rw [List.length_replicate]; exact hp),
    getD_replicate_zero, zero_add, sum_map_neg_ite, sub_eq_add_neg]

theorem sum_map_sub {V : Type} [SubtractionCommMonoid V] {E : Type}
    (l : List E) (f g : E → V) :
    (l.map (fun e => f e - g e)).sum = (l.map f).sum - (l.map g).sum := by
  induction l with
  | nil => simp
  | cons e es ih =>
    simp only [List.map_cons, List.sum_cons, ih]
    rw [sub_add_sub_comm]

theorem take_eq_range_map_getD {V : Type} (d : V) (l : List V) (T : Nat)
    (h : T ≤ l.length) :
    l.take T = (List.range T).map (fun t => l.getD t d) := by
  apply List.ext_getElem
  · simp only [List.length_take, List.length_map, List.length_range]
    omega
  · intro i h1 h2
    simp only [List.getElem_take, List.getElem_map, List.getElem_range]
    rw [List.getD_eq_getElem]

theorem drop_eq_range_map_getD {V : Type} (d : V) (l : List V) (R : Nat)
    (h : R ≤ l.length) :
    l.drop (l.length - R)
      = (List.range R).map (fun r => l.getD (l.length - R + r) d) := by
  apply List.ext_getElem
  · simp only [List.length_drop, List.length_map, List.length_range]
    omega
  · intro i h1 h2
    simp only [List.getElem_drop, List.getElem_map, List.getElem_range]
    rw [List.getD_eq_getElem]

/-! ## Claim theorems: gradient assembly -/

/-- C6 (amended): for every physical edge of the realized graph (after
the `fnT` remapping of relay node indices back to coordinate rows), the
direction vector — the coordinate difference divided by its length,
with the denominator replaced by 1 when the length is within the
closeness tolerance of zero, so that an exactly zero-length edge
contributes the zero vector — is added at the source row and subtracted
at the target row of the accumulated per-node array, and the Jacobian
blocks are its first `T` rows (turbines) and last `R` rows
(substations). -/
theorem C6_gradient_assembly_amended (VC : List (ℝ × ℝ))
    (fnT : Option (Int → Int)) (edges : List (Int × Int)) (p T R : Nat)
    (hp : p < VC.length) (hT : T ≤ VC.length) (hR : R ≤ VC.length) :
    (gradientsList VC fnT edges).getD p 0
      = (edges.map (fun e =>
          (if wrapIdx VC.length (applyFnT fnT e.1) = p
            then unitContrib VC fnT e else 0)
          - (if wrapIdx VC.length (applyFnT fnT e.2) = p
            then unitContrib VC fnT e else 0))).sum ∧
    (∀ e : Int × Int,
      VC.getD (wrapIdx VC.length (applyFnT fnT e.1)) 0
        = VC.getD (wrapIdx VC.length (applyFnT fnT e.2)) 0 →
      unitContrib VC fnT e = 0) ∧
    jac_x_turbines VC fnT edges T
      = (List.range T).map
          (fun t => ((gradientsList VC fnT edges).getD t 0).1) ∧
    jac_y_turbines VC fnT edges T
      = (List.range T).map
          (fun t => ((gradientsList VC fnT edges).getD t 0).2) ∧
    jac_x_substations VC fnT edges R
      = (List.range R).map
          (fun r =>
            ((gradientsList VC fnT edges).getD (VC.length - R + r) 0).1) ∧
    jac_y_substations VC fnT edges R
      = (List.range R).map
          (fun r =>
            ((gradientsList VC fnT edges).getD (VC.length - R + r) 0).2) := by
  have hg := gradientsList_length VC fnT edges
  refine ⟨?_, ?_, ?_, ?_, ?_, ?_⟩
  · rw [gradientsList_getD VC fnT edges p hp, sum_map_sub]
  · intro e heq
    unfold unitContrib
    dsimp only
    rw [heq, sub_self]
    rw [show hypot (0 : ℝ × ℝ) = 0 by unfold hypot; simp]
    rw [if_pos (by norm_num)]
    simp [Prod.ext_iff]
  · unfold jac_x_turbines
    rw [take_eq_range_map_getD 0 _ T (by rw [hg]; exact hT)]
    simp [List.map_map, Function.comp]
  · unfold jac_y_turbines
    rw [take_eq_range_map_getD 0 _ T (by rw [hg]; exact hT)]
    simp [List.map_map, Function.comp]
  · unfold jac_x_substations
    rw [show VC.length - R = (gradientsList VC fnT edges).length - R by
        rw [hg],
      drop_eq_range_map_getD 0 _ R (by rw [hg]; exact hR)]
    simp only [List.map_map, hg]
    rfl
  · unfold jac_y_substations
    rw [show VC.length - R = (gradientsList VC fnT edges).length - R by
        rw [hg],
      drop_eq_range_map_getD 0 _ R (by rw [hg]; exact hR)]
    simp only [List.map_map, hg]
    rfl

/-- A coordinate table whose single edge has near-zero (but nonzero)
length `1e-9`. -/
noncomputable def VCnear : List (ℝ × ℝ) := [(1 / 10 ^ 9, 0), (0, 0)]

/-- A coordinate table for the amended-claim witness. -/
noncomputable def VCw : List (ℝ × ℝ) := [(1, 0), (0, 0)]

/-- A coordinate table whose two rows coincide (an exactly zero-length
edge). -/
noncomputable def VCz : List (ℝ × ℝ) := [(3, 4), (3, 4)]

/-- C6 counterexample: the edge between rows 0 and 1 of `VCnear` has
length `1e-9`, within the `np.isclose` tolerance, yet its contribution
is the raw difference vector `(1e-9, 0)`, not the zero vector the claim
asserts for near-zero-length edges. -/
theorem C6_near_zero_counterexample :
    unitContrib VCnear none (0, 1) = (1 / 10 ^ 9, 0) ∧
    ((1 / 10 ^ 9 : ℝ), (0 : ℝ)) ≠ ((0 : ℝ), (0 : ℝ)) := by
  constructor
  · unfold unitContrib
    dsimp only
    have hvec : VCnear.getD (wrapIdx VCnear.length (applyFnT none (0, 1).1)) 0
        - VCnear.getD (wrapIdx VCnear.length (applyFnT none (0, 1).2)) 0
        = ((1 / 10 ^ 9 : ℝ), (0 : ℝ)) := by
      norm_num [VCnear, wrapIdx, applyFnT, Prod.ext_iff]
    rw [hvec]
    have hn : hypot ((1 / 10 ^ 9 : ℝ), (0 : ℝ)) = 1 / 10 ^ 9 := by
      unfold hypot
      rw [show ((1 / 10 ^ 9 : ℝ), (0 : ℝ)).1 ^ 2
          + ((1 / 10 ^ 9 : ℝ), (0 : ℝ)).2 ^ 2 = (1 / 10 ^ 9 : ℝ) ^ 2 by
        norm_num]
      exact Real.sqrt_sq (by norm_num)
    rw [hn, if_pos (by
      rw [abs_of_pos (by norm_num : (0 : ℝ) < 1 / 10 ^ 9)]
      norm_num)]
    norm_num [Prod.ext_iff]
  · intro h
    rw [Prod.mk.injEq] at h
    exact absurd h.1 (by norm_num)

/-- C6 amended claim witness: concrete instantiation on the one-edge
table `VCw` (accumulation formula at row 0) and on `VCz` (an exactly
zero-length edge contributes the zero vector). -/
theorem C6_gradient_assembly_amended_witness :
    (gradientsList VCw none [(0, 1)]).getD 0 0
      = ([((0 : Int), (1 : Int))].map (fun e =>
          (if wrapIdx VCw.length (applyFnT none e.1) = 0
            then unitContrib VCw none e else 0)
          - (if wrapIdx VCw.length (applyFnT none e.2) = 0
            then unitContrib VCw none e else 0))).sum ∧
    unitContrib VCz none (0, 1) = 0 :=
  ⟨(C6_gradient_assembly_amended VCw none [(0, 1)] 0 1 1 (by norm_num [VCw])
      (by norm_num [VCw]) (by norm_num [VCw])).1,
    (C6_gradient_assembly_amended VCz none [(0, 1)] 0 1 1 (by norm_num [VCz])
      (by norm_num [VCz]) (by norm_num [VCz])).2.1 (0, 1) (by rfl)⟩

end Ard
